import Mathlib

/-!
Verification of the frameo-miniatures image pipeline.

This file gives a shallow embedding, in Lean 4, of the Go sources of the
`tgagor/frameo-miniatures` repository: filename normalization
(`internal/fileutil/fileutil.go`), the resize geometry and the per-file
processing pipeline (`internal/processor/processor.go`), the ignore matcher
and directory walker (`internal/discovery/ignore.go`, `walker.go`) and the
pruner (`internal/pruner`).  Strings are Lean `String`s, filesystem paths are
lists of path components (real directory entries never contain a slash, so the
component list determines the rendered path), byte slices are `List Nat`, and
Go's `float64` aspect-ratio arithmetic is modelled by exact integer
arithmetic, with `int(...)` truncation of a non-negative quotient rendered as
natural-number division.  External collaborators (codecs, the EXIF library,
the filesystem) appear as explicit oracle inputs, exactly where the Go code
calls them.
-/

namespace Frameo

/-! ## Filename normalization (`internal/fileutil/fileutil.go`) -/

/-- The FAT32-invalid characters replaced by `NormalizeFilename`
(`fileutil.go` line 16), in source order. -/
def invalidChars : List Char := ['\\', '/', ':', ';', '*', '?', '"', '<', '>', '|']

/-- Scanner for Go's `filepath.Ext`: walk the path backwards; stop with no
extension at a path separator, otherwise return from the last dot on.  The
accumulator holds the characters already scanned, in forward order. -/
def extAux : List Char → List Char → List Char
  | _, [] => []
  | acc, c :: rest =>
    if c = '/' then []
    else if c = '.' then c :: acc
    else extAux (c :: acc) rest

/-- Go `filepath.Ext` (Unix separator): the suffix of the final path element
starting at its last dot, or empty. -/
def extOf (s : List Char) : List Char := extAux [] s.reverse

/-- Go `strings.TrimSuffix`: drop `suf` from the end of `s` when it is a
suffix, else return `s` unchanged. -/
def trimSuffix (s suf : List Char) : List Char :=
  if suf.isSuffixOf s then s.take (s.length - suf.length) else s

/-- Go `strings.ReplaceAll` specialised to a single-character pattern, which
is how `NormalizeFilename` uses it: substitute `'_'` for every occurrence of
the character `t`. -/
def replaceAllChar (t : Char) (s : List Char) : List Char :=
  s.map (fun c => if c = t then '_' else c)

/-- `fileutil.NormalizeFilename`: strip the extension, then run the chain of
`strings.ReplaceAll` calls, one per invalid character, in source order. -/
def normalizeFilename (filename : String) : String :=
  ⟨invalidChars.foldl (fun acc t => replaceAllChar t acc)
      (trimSuffix filename.data (extOf filename.data))⟩

/-- `fileutil.GetOutputFilename`: normalized name plus the format-determined
extension (`.jpg` for jpg/jpeg, else `.webp`). -/
def getOutputFilename (inputFilename format : String) : String :=
  normalizeFilename inputFilename ++
    (if format = "jpg" ∨ format = "jpeg" then ".jpg" else ".webp")

/-- The spec's wording of filename normalization, written independently of the
source: strip the extension, replace each occurrence of any character from the
invalid set by `'_'` in one pass, append the format extension. -/
def specOutputFilename (inputFilename format : String) : String :=
  ⟨(trimSuffix inputFilename.data (extOf inputFilename.data)).map
      (fun c => if c ∈ invalidChars then '_' else c)⟩ ++
    (if format = "jpg" ∨ format = "jpeg" then ".jpg" else ".webp")

/-- A chain of single-character `ReplaceAll` passes is the same as one
simultaneous replacement pass over the whole target set. -/
theorem foldl_replaceAllChar (ts : List Char) (s : List Char) :
    ts.foldl (fun acc t => replaceAllChar t acc) s =
      s.map (fun c => if c ∈ ts then '_' else c) := by
  induction ts generalizing s with
  | nil => simp
  | cons t ts ih =>
    rw [List.foldl_cons, ih]
    simp only [replaceAllChar, List.map_map]
    apply List.map_congr_left
    intro c _
    by_cases hc : c = t
    · subst hc
      simp only [Function.comp_apply, if_pos rfl, List.mem_cons, true_or, if_pos]
      by_cases h2 : '_' ∈ ts <;> simp [h2]
    · simp only [Function.comp_apply, if_neg hc, List.mem_cons]
      by_cases h2 : c ∈ ts <;> simp [h2, hc]

/-- C4: the output filename is the input filename with its extension stripped,
every invalid character (`\ / : ; * ? " < > |`) replaced by `_`, and the
format-determined extension appended; in particular `photo:test.jpg` maps to
`photo_test.webp` under webp and `photo_test.jpg` under jpg, and
`photo<test>.jpg` maps to `photo_test_.webp`. -/
theorem getOutputFilename_spec :
    (∀ inputFilename format : String,
        getOutputFilename inputFilename format =
          specOutputFilename inputFilename format) ∧
    getOutputFilename "photo:test.jpg" "webp" = "photo_test.webp" ∧
    getOutputFilename "photo:test.jpg" "jpg" = "photo_test.jpg" ∧
    getOutputFilename "photo<test>.jpg" "webp" = "photo_test_.webp" := by
  refine ⟨fun inputFilename format => ?_, by decide, by decide, by decide⟩
  unfold getOutputFilename specOutputFilename normalizeFilename
  rw [foldl_replaceAllChar]

/-! ## Resize geometry (`processor.go` lines 97-126, `imaging.Fit`/`Resize`) -/

/-- `frameLong` from `ProcessFile` (processor.go lines 101-104): start from
the configured width and take the height instead when it is larger. -/
def frameLong (width height : Nat) : Nat := if height > width then height else width

/-- `frameShort` from `ProcessFile` (processor.go lines 105-108). -/
def frameShort (width height : Nat) : Nat := if height < width then height else width

/-- The orientation-dependent fit target of `ProcessFile` (lines 110-123):
landscape-or-square images fit into `frameLong × frameShort`, portrait images
into `frameShort × frameLong`. -/
def fitTargetBox (width height imgW imgH : Nat) : Nat × Nat :=
  if imgW ≥ imgH then (frameLong width height, frameShort width height)
  else (frameShort width height, frameLong width height)

/-- Output dimensions of `imaging.Resize` (disintegration/imaging): a zero
requested dimension is recomputed from the other one preserving aspect ratio,
rounded to nearest with a minimum of one pixel; `math.Floor(x+0.5)` on the
non-negative quotient `a/b` is `(2a+b)/(2b)` in integer arithmetic.  Go
updates the width before testing the height, so the height recomputation uses
the updated width. -/
def imagingResizeDims (srcW srcH reqW reqH : Nat) : Nat × Nat :=
  if reqW = 0 ∧ reqH = 0 then (0, 0)
  else if srcW = 0 ∨ srcH = 0 then (0, 0)
  else
    let w := if reqW = 0 then max 1 ((2 * reqH * srcW + srcH) / (2 * srcH)) else reqW
    let h := if reqH = 0 then max 1 ((2 * w * srcH + srcW) / (2 * srcW)) else reqH
    (w, h)

/-- Output dimensions of `imaging.Fit`: degenerate inputs give the empty
image, an image already inside the box is returned unchanged, and otherwise
the aspect ratios are compared and the bound dimension is set to the box edge
while the other is truncated.  The `float64` aspect-ratio comparison
`srcW/srcH > maxW/maxH` and the truncation `int(maxW/(srcW/srcH))` are
modelled exactly: cross-multiplied comparison and natural-number division. -/
def imagingFitDims (srcW srcH maxW maxH : Nat) : Nat × Nat :=
  if maxW = 0 ∨ maxH = 0 then (0, 0)
  else if srcW = 0 ∨ srcH = 0 then (0, 0)
  else if srcW ≤ maxW ∧ srcH ≤ maxH then (srcW, srcH)
  else if srcW * maxH > maxW * srcH then
    imagingResizeDims srcW srcH maxW (maxW * srcH / srcW)
  else
    imagingResizeDims srcW srcH (maxH * srcW / srcH) maxH

/-- The complete resize step of `ProcessFile` (lines 97-126): choose the
orientation-dependent box, then fit-within. -/
def processResizeDims (width height imgW imgH : Nat) : Nat × Nat :=
  let box := fitTargetBox width height imgW imgH
  imagingFitDims imgW imgH box.1 box.2

/-- `imaging.Fit` output bounds: with a positive box and source, the result
stays inside the box and the cross product of output and source dimensions
differs by less than the larger source dimension. -/
theorem imagingFitDims_bounds (srcW srcH maxW maxH : Nat)
    (hw : 0 < srcW) (hh : 0 < srcH) (hW : 0 < maxW) (hH : 0 < maxH) :
    (imagingFitDims srcW srcH maxW maxH).1 ≤ maxW ∧
    (imagingFitDims srcW srcH maxW maxH).2 ≤ maxH ∧
    (((imagingFitDims srcW srcH maxW maxH).1 * srcH : Int) -
        ((imagingFitDims srcW srcH maxW maxH).2 * srcW : Int)).natAbs
      < max srcW srcH := by
  have hWm : srcW ≤ max srcW srcH := Nat.le_max_left _ _
  have hHm : srcH ≤ max srcW srcH := Nat.le_max_right _ _
  unfold imagingFitDims
  rw [if_neg (by omega), if_neg (by omega)]
  by_cases hfit : srcW ≤ maxW ∧ srcH ≤ maxH
  · rw [if_pos hfit]
    refine ⟨hfit.1, hfit.2, ?_⟩
    have hzero : ((srcW : Int) * srcH - (srcH : Int) * srcW) = 0 := by ring
    simp only [hzero, Int.natAbs_zero]
    omega
  · rw [if_neg hfit]
    by_cases hasp : srcW * maxH > maxW * srcH
    · -- wide image: width pinned to the box width, height truncated down
      rw [if_pos hasp]
      have hq_lt : maxW * srcH / srcW < maxH := by
        rw [Nat.div_lt_iff_lt_mul hw]
        calc maxW * srcH < srcW * maxH := hasp
          _ = maxH * srcW := by ring
      have hred : imagingResizeDims srcW srcH maxW (maxW * srcH / srcW) =
          (maxW, if maxW * srcH / srcW = 0
                 then max 1 ((2 * maxW * srcH + srcW) / (2 * srcW))
                 else maxW * srcH / srcW) := by
        simp only [imagingResizeDims]
        rw [if_neg (by omega), if_neg (by omega)]
        simp only [if_neg (show ¬ maxW = 0 by omega)]
      rw [hred]
      by_cases hz : maxW * srcH / srcW = 0
      · -- truncated height would be zero; `Resize` recomputes it, minimum 1px
        have hsm : maxW * srcH < srcW := by
          by_contra hcon
          have h1 : 1 ≤ maxW * srcH / srcW :=
            (Nat.le_div_iff_mul_le hw).mpr (by omega)
          omega
        have hround : (2 * maxW * srcH + srcW) / (2 * srcW) ≤ 1 := by
          have hassoc : 2 * maxW * srcH = 2 * (maxW * srcH) := by ring
          rw [hassoc]
          have h1 : 2 * (maxW * srcH) + srcW < 2 * (2 * srcW) := by omega
          have := (Nat.div_lt_iff_lt_mul (by omega : 0 < 2 * srcW)).mpr h1
          omega
        have hpos : 0 < maxW * srcH := Nat.mul_pos hW hh
        rw [if_pos hz]
        have hmax1 : max 1 ((2 * maxW * srcH + srcW) / (2 * srcW)) = 1 := by omega
        rw [hmax1]
        refine ⟨le_refl _, by omega, ?_⟩
        have h1 : ((maxW : Int) * srcH) = ((maxW * srcH : Nat) : Int) := by
          push_cast; ring
        rw [h1]
        omega
      · rw [if_neg hz]
        refine ⟨le_refl _, le_of_lt hq_lt, ?_⟩
        have h1 : ((maxW : Int) * srcH) = ((maxW * srcH : Nat) : Int) := by
          push_cast; ring
        have h2 : (((maxW * srcH / srcW : Nat) : Int) * srcW)
            = ((maxW * srcH / srcW * srcW : Nat) : Int) := by push_cast; ring
        rw [h1, h2]
        have hsub : maxW * srcH / srcW * srcW + maxW * srcH % srcW = maxW * srcH :=
          Nat.div_add_mod' _ _
        have hmlt : maxW * srcH % srcW < srcW := Nat.mod_lt _ hw
        omega
    · -- tall or equal-aspect image: height pinned to the box height
      rw [if_neg hasp]
      have h1 : maxH * srcW ≤ maxW * srcH := by
        have h2 := not_lt.mp hasp
        calc maxH * srcW = srcW * maxH := Nat.mul_comm _ _
          _ ≤ maxW * srcH := h2
      have hq_le : maxH * srcW / srcH ≤ maxW := by
        calc maxH * srcW / srcH ≤ maxW * srcH / srcH := Nat.div_le_div_right h1
          _ = maxW := Nat.mul_div_cancel maxW hh
      have hred : imagingResizeDims srcW srcH (maxH * srcW / srcH) maxH =
          (if maxH * srcW / srcH = 0
           then max 1 ((2 * maxH * srcW + srcH) / (2 * srcH))
           else maxH * srcW / srcH, maxH) := by
        simp only [imagingResizeDims]
        rw [if_neg (by omega), if_neg (by omega)]
        simp only [if_neg (show ¬ maxH = 0 by omega)]
      rw [hred]
      by_cases hz : maxH * srcW / srcH = 0
      · have hsm : maxH * srcW < srcH := by
          by_contra hcon
          have h2 : 1 ≤ maxH * srcW / srcH :=
            (Nat.le_div_iff_mul_le hh).mpr (by omega)
          omega
        have hround : (2 * maxH * srcW + srcH) / (2 * srcH) ≤ 1 := by
          have hassoc : 2 * maxH * srcW = 2 * (maxH * srcW) := by ring
          rw [hassoc]
          have h2 : 2 * (maxH * srcW) + srcH < 2 * (2 * srcH) := by omega
          have := (Nat.div_lt_iff_lt_mul (by omega : 0 < 2 * srcH)).mpr h2
          omega
        have hpos : 0 < maxH * srcW := Nat.mul_pos hH hw
        rw [if_pos hz]
        have hmax1 : max 1 ((2 * maxH * srcW + srcH) / (2 * srcH)) = 1 := by omega
        rw [hmax1]
        refine ⟨by omega, le_refl _, ?_⟩
        have h2 : ((maxH : Int) * srcW) = ((maxH * srcW : Nat) : Int) := by
          push_cast; ring
        rw [h2]
        omega
      · rw [if_neg hz]
        refine ⟨hq_le, le_refl _, ?_⟩
        have h2 : (((maxH * srcW / srcH : Nat) : Int) * srcH)
            = ((maxH * srcW / srcH * srcH : Nat) : Int) := by push_cast; ring
        have h3 : ((maxH : Int) * srcW) = ((maxH * srcW : Nat) : Int) := by
          push_cast; ring
        rw [h2, h3]
        have hsub : maxH * srcW / srcH * srcH + maxH * srcW % srcH = maxH * srcW :=
          Nat.div_add_mod' _ _
        have hmlt : maxH * srcW % srcH < srcH := Nat.mod_lt _ hh
        omega

/-- C1: with positive configured dimensions and a positive decoded image, the
resize step of `ProcessFile` fits the orientation-dependent bounding box —
output width at most the box width (`max width height` for landscape-or-square
images, `min width height` for portrait ones), output height at most the box
height — and preserves the source aspect ratio up to rounding, with no
cropping: the cross product `outW * imgH - outH * imgW` is smaller in absolute
value than the larger source dimension, i.e.
`|outW/outH - imgW/imgH| < max imgW imgH / (outH * imgH)`. -/
theorem processResizeDims_fits (width height imgW imgH : Nat)
    (hW : 0 < width) (hH : 0 < height) (hw : 0 < imgW) (hh : 0 < imgH) :
    (processResizeDims width height imgW imgH).1 ≤
        (if imgW ≥ imgH then max width height else min width height) ∧
    (processResizeDims width height imgW imgH).2 ≤
        (if imgW ≥ imgH then min width height else max width height) ∧
    (((processResizeDims width height imgW imgH).1 * imgH : Int) -
        ((processResizeDims width height imgW imgH).2 * imgW : Int)).natAbs
      < max imgW imgH := by
  have hmaxEq : frameLong width height = max width height := by
    unfold frameLong
    split
    · exact (Nat.max_eq_right (le_of_lt (by assumption))).symm
    · exact (Nat.max_eq_left (by omega)).symm
  have hminEq : frameShort width height = min width height := by
    unfold frameShort
    split
    · exact (Nat.min_eq_right (le_of_lt (by assumption))).symm
    · exact (Nat.min_eq_left (by omega)).symm
  have hbox : fitTargetBox width height imgW imgH =
      (if imgW ≥ imgH then max width height else min width height,
       if imgW ≥ imgH then min width height else max width height) := by
    unfold fitTargetBox
    by_cases h1 : imgW ≥ imgH
    · rw [if_pos h1, if_pos h1, if_pos h1, hmaxEq, hminEq]
    · rw [if_neg h1, if_neg h1, if_neg h1, hmaxEq, hminEq]
  have hbW : 0 < (if imgW ≥ imgH then max width height else min width height) := by
    split
    · exact lt_of_lt_of_le hW (Nat.le_max_left _ _)
    · exact lt_min hW hH
  have hbH : 0 < (if imgW ≥ imgH then min width height else max width height) := by
    split
    · exact lt_min hW hH
    · exact lt_of_lt_of_le hW (Nat.le_max_left _ _)
  have hres : processResizeDims width height imgW imgH =
      imagingFitDims imgW imgH
        (if imgW ≥ imgH then max width height else min width height)
        (if imgW ≥ imgH then min width height else max width height) := by
    unfold processResizeDims
    rw [hbox]
  rw [hres]
  exact imagingFitDims_bounds imgW imgH _ _ hw hh hbW hbH

/-- Witness for C1 at the dimensions of the repository's example photo
(6016×3384) under the default 1280×800 frame. -/
theorem processResizeDims_fits_witness :
    0 < 1280 ∧ 0 < 800 ∧ 0 < 6016 ∧ 0 < 3384 ∧
    ((processResizeDims 1280 800 6016 3384).1 ≤
        (if 6016 ≥ 3384 then max 1280 800 else min 1280 800) ∧
      (processResizeDims 1280 800 6016 3384).2 ≤
        (if 6016 ≥ 3384 then min 1280 800 else max 1280 800) ∧
      (((processResizeDims 1280 800 6016 3384).1 * 3384 : Int) -
          ((processResizeDims 1280 800 6016 3384).2 * 6016 : Int)).natAbs
        < max 6016 3384) :=
  ⟨by decide, by decide, by decide, by decide,
    processResizeDims_fits 1280 800 6016 3384
      (by decide) (by decide) (by decide) (by decide)⟩

/-! ## Ignore matcher (`internal/discovery/ignore.go`) -/

/-- `IgnoreMatcher`: either no ignore file was found (`ignorer == nil`) or a
compiled rule set, modelled as the predicate its `MatchesPath` computes over a
path given as its slash-separated components. -/
structure IgnoreMatcher where
  ignorer : Option (List String → Bool)

/-- `IgnoreMatcher.Matches` (ignore.go lines 74-79): `false` with no rule
file, otherwise `ignorer.MatchesPath(path)`.  The `isDir` parameter is taken
and discarded, exactly as in the source. -/
def IgnoreMatcher.Matches (m : IgnoreMatcher) (path : List String) (isDir : Bool) : Bool :=
  match m.ignorer with
  | none => false
  | some ignorer => ignorer path

/-- C10: the `isDirectory` argument of `IgnoreMatcher.Matches` never
influences the result: matching a path as a directory and as a file give the
same answer for every loaded rule set. -/
theorem matches_ignores_isDir (m : IgnoreMatcher) (path : List String) :
    m.Matches path true = m.Matches path false := by
  unfold IgnoreMatcher.Matches
  cases m.ignorer <;> rfl

/-! ## Discovery walker (`internal/discovery/walker.go`) -/

/-- A filesystem tree entry: a file or a directory with its children.  Names
are single path components (real directory entries contain no slash). -/
inductive FsEntry where
  | file (name : String)
  | dir (name : String) (children : List FsEntry)
deriving Repr

/-- `discovery.File`: absolute path and root-relative path, both as component
lists. -/
structure FileDesc where
  path : List String
  relativePath : List String
deriving DecidableEq, Repr

/-- `isValidExtension` (walker.go lines 133-136): lowercase extension of the
path is `.jpg`, `.jpeg` or `.heic`.  `filepath.Ext` of a full path equals the
extension of its last component, so the walker model applies this to entry
names. -/
def isValidExtension (name : String) : Bool :=
  let ext : String := ⟨(extOf name.data).map Char.toLower⟩
  ext = ".jpg" || ext = ".jpeg" || ext = ".heic"

/-- The two-form ignore test of `WalkFiles` (walker.go lines 101 and 114):
a path is ignored when either the root-relative form or the full-path form
(root components prepended) matches.  `matcher` is the loaded rule set's
`MatchesPath` on component lists. -/
def ignoredEither (matcher : List String → Bool) (root rel : List String) : Bool :=
  matcher rel || matcher (root ++ rel)

mutual

/-- `WalkFiles` on a single entry below the root, at relative directory `rel`:
ignored directories are skipped with their whole subtree (`filepath.SkipDir`),
other directories are descended into, and a file is emitted when its extension
is valid (checked first, walker.go line 109) and it is not ignored under
either path form (line 114). -/
def walkEntry (matcher : List String → Bool) (root rel : List String) :
    FsEntry → List FileDesc
  | .file n =>
    if !isValidExtension n then []
    else if ignoredEither matcher root (rel ++ [n]) then []
    else [⟨root ++ (rel ++ [n]), rel ++ [n]⟩]
  | .dir n children =>
    if ignoredEither matcher root (rel ++ [n]) then []
    else walkList matcher root (rel ++ [n]) children

/-- `WalkFiles` over the entries of one directory, in traversal order. -/
def walkList (matcher : List String → Bool) (root rel : List String) :
    List FsEntry → List FileDesc
  | [] => []
  | e :: es => walkEntry matcher root rel e ++ walkList matcher root rel es

end

/-- `WalkFiles` (walker.go lines 83-131): `filepath.WalkDir` first visits the
root itself (relative path `"."`, rendered here as the empty component list,
and full path `root`); if the root is ignored its whole subtree is skipped,
otherwise the children are walked. -/
def walkFiles (matcher : List String → Bool) (root : List String)
    (tree : List FsEntry) : List FileDesc :=
  if ignoredEither matcher root [] then [] else walkList matcher root [] tree

mutual

/-- A component path addresses a file inside one entry. -/
def entryHasFile : FsEntry → List String → Bool
  | .file n, p => p = [n]
  | .dir n children, p =>
    match p with
    | [] => false
    | x :: rest => x = n && listHasFile children rest

/-- A component path addresses a file inside a list of entries. -/
def listHasFile : List FsEntry → List String → Bool
  | [], _ => false
  | e :: es, p => entryHasFile e p || listHasFile es p

end

/-- The last component of a path names a valid image file. -/
def validLast : List String → Bool
  | [] => false
  | [n] => isValidExtension n
  | _ :: rest => validLast rest

/-- The conditions under which the walker yields the descriptor `fd` for the
file at `rel ++ tail`: correct paths, valid extension, the file itself not
ignored under either path form, and no strictly enclosing directory between
`rel` and the file ignored under either form. -/
def yieldCond (matcher : List String → Bool) (root rel tail : List String)
    (fd : FileDesc) : Prop :=
  fd = ⟨root ++ (rel ++ tail), rel ++ tail⟩ ∧
  validLast tail = true ∧
  ignoredEither matcher root (rel ++ tail) = false ∧
  ∀ k, 0 < k → k < tail.length →
    ignoredEither matcher root (rel ++ tail.take k) = false

theorem listHasFile_nil (es : List FsEntry) : listHasFile es [] = false := by
  induction es with
  | nil => rfl
  | cons e es ih =>
    cases e <;> simp [listHasFile, entryHasFile, ih]

mutual

/-- Membership characterization for the walk of a single entry. -/
theorem mem_walkEntry (matcher : List String → Bool) (root rel : List String)
    (e : FsEntry) (fd : FileDesc) :
    fd ∈ walkEntry matcher root rel e ↔
      ∃ tail, entryHasFile e tail = true ∧ yieldCond matcher root rel tail fd := by
  cases e with
  | file n =>
    constructor
    · intro hmem
      unfold walkEntry at hmem
      by_cases hv : isValidExtension n
      · rw [if_neg (by simp [hv])] at hmem
        by_cases hi : ignoredEither matcher root (rel ++ [n]) = true
        · rw [if_pos hi] at hmem
          exact absurd hmem (List.not_mem_nil _)
        · rw [if_neg hi] at hmem
          simp only [List.mem_singleton] at hmem
          refine ⟨[n], by simp [entryHasFile], hmem, by simpa [validLast] using hv,
            by simpa using hi, ?_⟩
          intro k hk0 hklen
          simp only [List.length_singleton] at hklen
          omega
      · rw [if_pos (by simp [hv])] at hmem
        exact absurd hmem (List.not_mem_nil _)
    · rintro ⟨tail, h1, h2, h3, h4, h5⟩
      simp only [entryHasFile, decide_eq_true_eq] at h1
      subst h1
      simp only [validLast] at h3
      unfold walkEntry
      rw [if_neg (by simp [h3]), if_neg (by simp [h4])]
      simp [h2]
  | dir n children =>
    constructor
    · intro hmem
      unfold walkEntry at hmem
      by_cases hi : ignoredEither matcher root (rel ++ [n]) = true
      · rw [if_pos hi] at hmem
        exact absurd hmem (List.not_mem_nil _)
      · rw [if_neg hi] at hmem
        obtain ⟨tail, ht1, ht2, ht3, ht4, ht5⟩ :=
          (mem_walkList matcher root (rel ++ [n]) children fd).mp hmem
        refine ⟨n :: tail, by simp [entryHasFile, ht1], ?_, ?_, ?_, ?_⟩
        · rw [ht2]; simp
        · have htail : tail ≠ [] := by
            intro h0
            rw [h0, listHasFile_nil] at ht1
            exact Bool.noConfusion ht1
          cases tail with
          | nil => exact absurd rfl htail
          | cons a as => simpa [validLast] using ht3
        · have heq : rel ++ n :: tail = (rel ++ [n]) ++ tail := by simp
          rw [heq]
          exact ht4
        · intro k hk0 hklen
          obtain ⟨j, rfl⟩ : ∃ j, k = j + 1 := ⟨k - 1, by omega⟩
          rw [List.take_succ_cons]
          have heq : rel ++ n :: List.take j tail = (rel ++ [n]) ++ List.take j tail := by
            simp
          rw [heq]
          rcases Nat.eq_zero_or_pos j with hj | hj
          · subst hj
            simp only [List.take_zero, List.append_nil]
            simpa using hi
          · have hjlen : j < tail.length := by
              simp only [List.length_cons] at hklen
              omega
            exact ht5 j hj hjlen
    · rintro ⟨tail, ht1, ht2, ht3, ht4, ht5⟩
      cases tail with
      | nil => simp [entryHasFile] at ht1
      | cons x rest =>
        simp only [entryHasFile, Bool.and_eq_true, decide_eq_true_eq] at ht1
        obtain ⟨rfl, hrest⟩ := ht1
        have hrne : rest ≠ [] := by
          intro h0
          rw [h0, listHasFile_nil] at hrest
          exact Bool.noConfusion hrest
        have hlen : 1 < (x :: rest).length := by
          cases rest with
          | nil => exact absurd rfl hrne
          | cons a as => simp
        have hign := ht5 1 (by omega) hlen
        rw [List.take_succ_cons, List.take_zero] at hign
        unfold walkEntry
        rw [if_neg (by simp [hign])]
        apply (mem_walkList matcher root (rel ++ [x]) children fd).mpr
        refine ⟨rest, hrest, ?_, ?_, ?_, ?_⟩
        · rw [ht2]; simp
        · cases rest with
          | nil => exact absurd rfl hrne
          | cons a as => simpa [validLast] using ht3
        · have heq : (rel ++ [x]) ++ rest = rel ++ x :: rest := by simp
          rw [heq]
          exact ht4
        · intro j hj0 hjlen
          have hstep := ht5 (j + 1) (by omega) (by simp only [List.length_cons]; omega)
          rw [List.take_succ_cons] at hstep
          have heq : rel ++ x :: List.take j rest = (rel ++ [x]) ++ List.take j rest := by
            simp
          rw [heq] at hstep
          exact hstep

/-- Membership characterization for the walk of a directory's entries. -/
theorem mem_walkList (matcher : List String → Bool) (root rel : List String)
    (es : List FsEntry) (fd : FileDesc) :
    fd ∈ walkList matcher root rel es ↔
      ∃ tail, listHasFile es tail = true ∧ yieldCond matcher root rel tail fd := by
  cases es with
  | nil =>
    simp [walkList, listHasFile]
  | cons e es =>
    simp only [walkList, List.mem_append]
    rw [mem_walkEntry matcher root rel e fd, mem_walkList matcher root rel es fd]
    constructor
    · rintro (⟨tail, h1, h2⟩ | ⟨tail, h1, h2⟩)
      · exact ⟨tail, by simp [listHasFile, h1], h2⟩
      · exact ⟨tail, by simp [listHasFile, h1], h2⟩
    · rintro ⟨tail, h1, h2⟩
      simp only [listHasFile, Bool.or_eq_true] at h1
      rcases h1 with h1 | h1
      · exact Or.inl ⟨tail, h1, h2⟩
      · exact Or.inr ⟨tail, h1, h2⟩

end

/-- The compiled form of the gitignore rule `*/subdir/*` used by the
sabhiram/go-gitignore library: the line is translated to the regular
expression `^(|.*/)([^/]*)/subdir/([^/]*)(|/.*)$`, which matches a
slash-separated path exactly when `subdir` occurs as a component that is
neither the first nor the last one. -/
def starSubdirStar : List String → Bool
  | [] => false
  | _ :: rest => rest.dropLast.contains "subdir"

/-- C6: the walker yields exactly the descriptors of files present in the
tree whose last component has a valid lowercase extension (`.jpg`, `.jpeg`,
`.heic`), that are not ignored under either path form (root-relative or with
the root prepended), and none of whose enclosing directories (including the
root itself, `k = 0`) is ignored under either form — so the walker never
descends into an ignored directory's subtree; in particular, with the rule
`*/subdir/*` and the input `root/subdir/image.jpg`, discovery yields zero
files. -/
theorem walkFiles_spec :
    (∀ (matcher : List String → Bool) (root : List String) (tree : List FsEntry)
        (fd : FileDesc),
        fd ∈ walkFiles matcher root tree ↔
          ∃ comps, listHasFile tree comps = true ∧
            fd = ⟨root ++ comps, comps⟩ ∧
            validLast comps = true ∧
            ignoredEither matcher root comps = false ∧
            ∀ k, k < comps.length →
              ignoredEither matcher root (comps.take k) = false) ∧
    walkFiles starSubdirStar ["root"]
        [FsEntry.dir "subdir" [FsEntry.file "image.jpg"]] = [] := by
  constructor
  · intro matcher root tree fd
    unfold walkFiles
    by_cases hroot : ignoredEither matcher root [] = true
    · rw [if_pos hroot]
      simp only [List.not_mem_nil, false_iff]
      rintro ⟨comps, h1, h2, h3, h4, h5⟩
      have hne : comps ≠ [] := by
        intro h0
        rw [h0] at h3
        exact Bool.noConfusion h3
      have hlen : 0 < comps.length := List.length_pos.mpr hne
      have := h5 0 hlen
      rw [List.take_zero] at this
      rw [this] at hroot
      exact Bool.noConfusion hroot
    · rw [if_neg hroot]
      rw [mem_walkList matcher root [] tree fd]
      constructor
      · rintro ⟨tail, h1, h2, h3, h4, h5⟩
        simp only [List.nil_append] at h2 h4 h5
        refine ⟨tail, h1, h2, h3, h4, ?_⟩
        intro k hk
        rcases Nat.eq_zero_or_pos k with hk0 | hk0
        · subst hk0
          rw [List.take_zero]
          simpa using hroot
        · exact h5 k hk0 hk
      · rintro ⟨comps, h1, h2, h3, h4, h5⟩
        refine ⟨comps, h1, ?_, h3, ?_, ?_⟩
        · simpa using h2
        · simpa using h4
        · intro k hk0 hklen
          simpa using h5 k hklen
  · rfl

/-! ## Pruner (`internal/pruner/pruner.go`) -/

/-- `Pruner.getOutputPath` (pruner.go lines 92-100): directory part unchanged,
filename replaced by `GetOutputFilename`.  Walker-produced relative paths are
never empty; the empty case is unreachable. -/
def getOutputPath (format : String) (rel : List String) : List String :=
  match rel.getLast? with
  | none => []
  | some base => rel.dropLast ++ [getOutputFilename base format]

/-- The `expectedFiles` set built by `Prune` (pruner.go lines 35-45): the
would-be output relative path of every file the walker yields. -/
def expectedOutputSet (matcher : List String → Bool) (root : List String)
    (tree : List FsEntry) (format : String) : List (List String) :=
  (walkFiles matcher root tree).map (fun fd => getOutputPath format fd.relativePath)

/-- The file-removal loop of `Prune` (pruner.go lines 48-81) over the files
found under the output root, given as their output-relative component paths:
a file in the expected set is left alone; an orphan is counted and, outside
dry-run, removed (dry-run only counts).  Returns the counter and the files
that remain. -/
def pruneFiles (dryRun : Bool) (expected : List (List String)) :
    List (List String) → Nat × List (List String)
  | [] => (0, [])
  | f :: rest =>
    if expected.contains f then
      let r := pruneFiles dryRun expected rest
      (r.1, f :: r.2)
    else if dryRun then
      let r := pruneFiles dryRun expected rest
      (r.1 + 1, f :: r.2)
    else
      let r := pruneFiles dryRun expected rest
      (r.1 + 1, r.2)

/-- Closed form of the non-dry-run removal loop: the survivors are the files
in the expected set, the counter is the number of orphans. -/
theorem pruneFiles_false (expected : List (List String))
    (outFiles : List (List String)) :
    pruneFiles false expected outFiles =
      ((outFiles.filter (fun f => !expected.contains f)).length,
        outFiles.filter (fun f => expected.contains f)) := by
  induction outFiles with
  | nil => rfl
  | cons f rest ih =>
    simp only [pruneFiles, ih, List.filter_cons]
    by_cases h : f ∈ expected
    · simp [h]
    · simp [h]

/-- A list all of whose members are expected is left unchanged with a zero
counter. -/
theorem pruneFiles_false_all_kept (expected : List (List String)) :
    ∀ l, (∀ f ∈ l, f ∈ expected) → pruneFiles false expected l = (0, l) := by
  intro l
  induction l with
  | nil => intro _; rfl
  | cons f rest ih =>
    intro h
    have hf : f ∈ expected := h f (List.mem_cons_self f rest)
    have hrest := ih (fun g hg => h g (List.mem_cons_of_mem f hg))
    simp [pruneFiles, hf, hrest]

/-- C7: non-dry-run `Prune` removes exactly the output files whose
output-relative path is absent from the expected output set (the normalized,
extension-swapped relative paths of the walker's files), returns their number
as the removed count, leaves files in the set untouched, and a second run on
the resulting state removes zero files; in particular with inputs
`{a.jpg, b.jpg}` and outputs `{a.webp, b.webp, orphan.webp}` exactly
`orphan.webp` is removed with count 1. -/
theorem prune_spec :
    (∀ (matcher : List String → Bool) (root : List String) (tree : List FsEntry)
        (format : String) (outFiles : List (List String)),
      (pruneFiles false (expectedOutputSet matcher root tree format) outFiles).2
          = outFiles.filter
              (fun f => (expectedOutputSet matcher root tree format).contains f) ∧
      (pruneFiles false (expectedOutputSet matcher root tree format) outFiles).1
          = (outFiles.filter
              (fun f => !(expectedOutputSet matcher root tree format).contains f)).length ∧
      pruneFiles false (expectedOutputSet matcher root tree format)
          (pruneFiles false (expectedOutputSet matcher root tree format) outFiles).2
        = (0, (pruneFiles false (expectedOutputSet matcher root tree format) outFiles).2)) ∧
    pruneFiles false
        (expectedOutputSet (fun _ => false) ["in"]
          [FsEntry.file "a.jpg", FsEntry.file "b.jpg"] "webp")
        [["a.webp"], ["b.webp"], ["orphan.webp"]]
      = (1, [["a.webp"], ["b.webp"]]) := by
  constructor
  · intro matcher root tree format outFiles
    refine ⟨?_, ?_, ?_⟩
    · rw [pruneFiles_false]
    · rw [pruneFiles_false]
    · apply pruneFiles_false_all_kept
      rw [pruneFiles_false]
      intro f hf
      simp only [List.mem_filter] at hf
      simpa using hf.2
  · rfl

/-! ## Empty-directory cleanup (`internal/pruner/pruner.go` lines 103-124) -/

mutual

/-- `removeEmptyDirs` at one entry: `filepath.Walk` reads the directory's
entries and then calls the callback on the directory *before* visiting its
children (top-down), and `os.Remove` succeeds exactly on an empty directory,
so an entry is removed iff it is a directory whose contents are empty at
visit time — that is, empty before its own subtree is processed. -/
def removeEmptyDirsEntry : FsEntry → Option FsEntry
  | .file n => some (.file n)
  | .dir n children =>
    if children.isEmpty then none
    else some (.dir n (removeEmptyDirsList children))

/-- The cleanup pass over a directory's entries, in traversal order. -/
def removeEmptyDirsList : List FsEntry → List FsEntry
  | [] => []
  | e :: es =>
    match removeEmptyDirsEntry e with
    | none => removeEmptyDirsList es
    | some e2 => e2 :: removeEmptyDirsList es

end

/-- `Pruner.removeEmptyDirs`: in dry-run nothing is removed (only logged);
otherwise the single top-down pass runs over the children of the output root
(the root itself is skipped by the `path == dir` guard). -/
def removeEmptyDirs (dryRun : Bool) (tree : List FsEntry) : List FsEntry :=
  if dryRun then tree else removeEmptyDirsList tree

mutual

/-- Some directory inside the entry is empty. -/
def entryHasEmptyDir : FsEntry → Bool
  | .file _ => false
  | .dir _ children => children.isEmpty || listHasEmptyDir children

/-- Some directory among the entries (or below them) is empty. -/
def listHasEmptyDir : List FsEntry → Bool
  | [] => false
  | e :: es => entryHasEmptyDir e || listHasEmptyDir es

end

/-- Counterexample to C8: with output tree `a/b` where `b` is an empty
directory and `a` contains only `b`, the cleanup pass (not in dry-run) removes
`b` but visits `a` before `b`'s removal, so the now-empty directory `a`
remains: an empty directory survives under the output root. -/
theorem removeEmptyDirs_counterexample :
    listHasEmptyDir (removeEmptyDirs false
        [FsEntry.dir "a" [FsEntry.dir "b" []]]) = true := rfl

mutual

/-- The cleanup pass never loses a file (single entry version): the surviving
entry addresses exactly the files the original entry addressed. -/
theorem entryHasFile_removeEmpty (e : FsEntry) (p : List String) :
    (match removeEmptyDirsEntry e with
     | none => false
     | some e2 => entryHasFile e2 p) = entryHasFile e p := by
  cases e with
  | file n => rfl
  | dir n children =>
    by_cases h : children.isEmpty
    · have hnil : children = [] := List.isEmpty_iff.mp h
      subst hnil
      simp only [removeEmptyDirsEntry, List.isEmpty_nil, if_pos]
      cases p with
      | nil => simp [entryHasFile]
      | cons x rest => simp [entryHasFile, listHasFile]
    · simp only [removeEmptyDirsEntry, if_neg h]
      cases p with
      | nil => simp [entryHasFile]
      | cons x rest =>
        simp only [entryHasFile]
        rw [listHasFile_removeEmpty children rest]

/-- The cleanup pass never loses a file (entry-list version). -/
theorem listHasFile_removeEmpty (es : List FsEntry) (p : List String) :
    listHasFile (removeEmptyDirsList es) p = listHasFile es p := by
  cases es with
  | nil => rfl
  | cons e es =>
    have he := entryHasFile_removeEmpty e p
    cases h : removeEmptyDirsEntry e with
    | none =>
      rw [h] at he
      simp only [removeEmptyDirsList, h, listHasFile, ← he,
        listHasFile_removeEmpty es p, Bool.false_or]
    | some e2 =>
      rw [h] at he
      have he2 : entryHasFile e2 p = entryHasFile e p := he
      simp only [removeEmptyDirsList, h, listHasFile, he2,
        listHasFile_removeEmpty es p]

end

/-- C8 (amended): the directory-cleanup pass is governed by the dry-run flag
(dry-run removes nothing); outside dry-run it is a single top-down pass that
removes a directory exactly when that directory was empty when visited —
i.e. iff its contents were empty before its own subtree was processed — and
never removes a file; a directory emptied only by the removal of its
subdirectories is not removed in the same pass. -/
theorem removeEmptyDirs_amended :
    (∀ tree, removeEmptyDirs true tree = tree) ∧
    (∀ (n : String) (cs : List FsEntry),
        removeEmptyDirsEntry (FsEntry.dir n cs) = none ↔ cs = []) ∧
    (∀ (tree : List FsEntry) (p : List String),
        listHasFile (removeEmptyDirs false tree) p = listHasFile tree p) := by
  refine ⟨fun tree => rfl, fun n cs => ?_, fun tree p => ?_⟩
  · simp only [removeEmptyDirsEntry]
    by_cases h : cs.isEmpty
    · simp [h, List.isEmpty_iff.mp h]
    · simp only [if_neg h]
      constructor
      · intro h0
        exact Option.noConfusion h0
      · intro h0
        rw [h0] at h
        exact absurd rfl h
  · unfold removeEmptyDirs
    rw [if_neg (by simp)]
    exact listHasFile_removeEmpty tree p

/-! ## EXIF model (`internal/processor/processor.go`) -/

/-- One entry of `exif.GetFlatExifData`: IFD path, tag name, the formatted
first value (a string), and the numeric value when the raw value is a
`[]uint16`/`[]uint8` as read by `fixOrientation` (none when the cast there
would fail). -/
structure ExifTag where
  ifdPath : String
  tagName : String
  formatted : String
  numValue : Option Nat
deriving DecidableEq, Repr

/-- A calendar timestamp, the information content of a Go `time.Time` parsed
from an EXIF date string. -/
structure Date6 where
  year : Nat
  month : Nat
  day : Nat
  hour : Nat
  minute : Nat
  second : Nat
deriving DecidableEq, Repr

/-- Go's zero `time.Time` is January 1 of year 1, 00:00:00; `IsZero` compares
against it. -/
def zeroDate : Date6 := ⟨1, 1, 1, 0, 0, 0⟩

def isLeapYear (y : Nat) : Bool :=
  y % 4 = 0 && (y % 100 ≠ 0 || y % 400 = 0)

def daysInMonth (y mo : Nat) : Nat :=
  if mo = 2 then (if isLeapYear y then 29 else 28)
  else if mo = 4 ∨ mo = 6 ∨ mo = 9 ∨ mo = 11 then 30
  else 31

/-- Numeric value of a decimal digit character. -/
def dv (c : Char) : Nat := c.toNat - 48

/-- Go `time.Parse("2006:01:02 15:04:05", s)`: fixed-width two-digit fields,
literal separators, and range validation (month 1-12, day valid for the
month, hour 0-23, minute/second 0-59); `none` on any violation. -/
def parseExifTime (s : String) : Option Date6 :=
  match s.data with
  | [y1, y2, y3, y4, a1, m1, m2, a2, d1, d2, a3, h1, h2, a4, n1, n2, a5, s1, s2] =>
    if a1 = ':' ∧ a2 = ':' ∧ a3 = ' ' ∧ a4 = ':' ∧ a5 = ':' ∧
        y1.isDigit ∧ y2.isDigit ∧ y3.isDigit ∧ y4.isDigit ∧
        m1.isDigit ∧ m2.isDigit ∧ d1.isDigit ∧ d2.isDigit ∧
        h1.isDigit ∧ h2.isDigit ∧ n1.isDigit ∧ n2.isDigit ∧
        s1.isDigit ∧ s2.isDigit then
      let y := 1000 * dv y1 + 100 * dv y2 + 10 * dv y3 + dv y4
      let mo := 10 * dv m1 + dv m2
      let d := 10 * dv d1 + dv d2
      let h := 10 * dv h1 + dv h2
      let mi := 10 * dv n1 + dv n2
      let sec := 10 * dv s1 + dv s2
      if 1 ≤ mo ∧ mo ≤ 12 ∧ 1 ≤ d ∧ d ≤ daysInMonth y mo ∧
          h ≤ 23 ∧ mi ≤ 59 ∧ sec ≤ 59 then
        some ⟨y, mo, d, h, mi, sec⟩
      else none
    else none
  | _ => none

/-- The capture-time loop of `ProcessFile` (processor.go lines 69-78): scan
the flat tag list in order; at the first tag named `DateTimeOriginal` or
`CreateDate` whose formatted value parses, keep that time and stop; a
matching tag that fails to parse is skipped and the scan continues.  The
`captureTime` variable starts at Go's zero time. -/
def extractCaptureTime : List ExifTag → Date6
  | [] => zeroDate
  | t :: rest =>
    if t.tagName = "DateTimeOriginal" ∨ t.tagName = "CreateDate" then
      match parseExifTime t.formatted with
      | some d => d
      | none => extractCaptureTime rest
    else extractCaptureTime rest

/-- The orientation loop of `fixOrientation` (processor.go lines 243-253):
the first tag named `Orientation` decides (then `break`); a value that is not
a `[]uint16`/`[]uint8` leaves the orientation at 0. -/
def extractOrientation : List ExifTag → Nat
  | [] => 0
  | t :: rest =>
    if t.tagName = "Orientation" then t.numValue.getD 0
    else extractOrientation rest

/-- Effect of `fixOrientation`'s rotation (processor.go lines 260-271) on the
pixel-grid dimensions: 3 rotates 180° (dimensions kept), 6 and 8 rotate by
90° (dimensions swapped), everything else is a no-op. -/
def fixOrientationDims (orientation : Nat) (wh : Nat × Nat) : Nat × Nat :=
  match orientation with
  | 3 => wh
  | 6 => (wh.2, wh.1)
  | 8 => (wh.2, wh.1)
  | _ => wh

/-- The `allowedTags` map of `rebuildExif` (processor.go lines 343-359). -/
def allowedTags : List String :=
  ["DateTime", "DateTimeOriginal", "CreateDate", "OffsetTime",
   "OffsetTimeOriginal", "OffsetTimeDigitized", "Make", "Model",
   "GPSLatitude", "GPSLongitude", "GPSAltitude", "GPSDateStamp",
   "GPSTimeStamp", "GPSProcessingMethod", "GPSAreaInformation"]

/-- The tag loop of `rebuildExif` (processor.go lines 361-393): skip tags not
in the allow-list, skip `Orientation` explicitly, skip tags whose IFD builder
cannot be obtained (`GetOrCreateIbFromRootIb` failure, oracle `getIbOk`) or
whose value `AddStandardWithName` rejects (oracle `addOk`); the rest are added
to the rebuilt block in order. -/
def rebuildExifTags (getIbOk addOk : ExifTag → Bool) : List ExifTag → List ExifTag
  | [] => []
  | t :: rest =>
    if !allowedTags.contains t.tagName then rebuildExifTags getIbOk addOk rest
    else if t.tagName = "Orientation" then rebuildExifTags getIbOk addOk rest
    else if !getIbOk t then rebuildExifTags getIbOk addOk rest
    else if !addOk t then rebuildExifTags getIbOk addOk rest
    else t :: rebuildExifTags getIbOk addOk rest

/-- C9: whatever the source tag list and whatever the per-tag library
outcomes, every tag in the rebuilt metadata block is in the fixed allow-list,
and in particular is never `Orientation`. -/
theorem rebuildExif_allowlist (getIbOk addOk : ExifTag → Bool)
    (entries : List ExifTag) (t : ExifTag)
    (ht : t ∈ rebuildExifTags getIbOk addOk entries) :
    t.tagName ∈ allowedTags ∧ t.tagName ≠ "Orientation" := by
  induction entries with
  | nil => exact absurd ht (List.not_mem_nil t)
  | cons e rest ih =>
    unfold rebuildExifTags at ht
    by_cases h1 : e.tagName ∈ allowedTags
    · rw [if_neg (by simp [h1])] at ht
      by_cases h2 : e.tagName = "Orientation"
      · rw [if_pos h2] at ht
        exact ih ht
      · rw [if_neg h2] at ht
        by_cases h3 : getIbOk e
        · rw [if_neg (by simp [h3])] at ht
          by_cases h4 : addOk e
          · rw [if_neg (by simp [h4])] at ht
            rcases List.mem_cons.mp ht with rfl | hmem
            · exact ⟨h1, h2⟩
            · exact ih hmem
          · rw [if_pos (by simp [h4])] at ht
            exact ih ht
        · rw [if_pos (by simp [h3])] at ht
          exact ih ht
    · rw [if_pos (by simp [h1])] at ht
      exact ih ht

/-- Witness for C9: a source block carrying an `Orientation` tag and a `Make`
tag rebuilds (with all library calls succeeding) to a block containing the
`Make` tag, which is allow-listed and is not `Orientation`. -/
theorem rebuildExif_allowlist_witness :
    (⟨"IFD", "Make", "TestCam", none⟩ : ExifTag) ∈
        rebuildExifTags (fun _ => true) (fun _ => true)
          [⟨"IFD", "Orientation", "6", some 6⟩, ⟨"IFD", "Make", "TestCam", none⟩] ∧
    ((⟨"IFD", "Make", "TestCam", none⟩ : ExifTag).tagName ∈ allowedTags ∧
      (⟨"IFD", "Make", "TestCam", none⟩ : ExifTag).tagName ≠ "Orientation") :=
  ⟨by decide, rebuildExif_allowlist (fun _ => true) (fun _ => true)
    [⟨"IFD", "Orientation", "6", some 6⟩, ⟨"IFD", "Make", "TestCam", none⟩]
    ⟨"IFD", "Make", "TestCam", none⟩ (by decide)⟩

/-! ## `ProcessFile` as a filesystem state machine (`processor.go` 45-214) -/

/-- How the destination file's modification time was produced: by `Chtimes`
with the extracted capture time, by `Chtimes` with the source file's own
modification time, or left at write time (`WriteFile` untouched). -/
inductive MTime where
  | fromCapture (d : Date6)
  | fromSource (t : Int)
  | fromWrite
deriving DecidableEq, Repr

/-- A destination file: its bytes, the pixel dimensions of the encoded image,
and how its modification time was set. -/
structure FileData where
  content : List Nat
  dims : Nat × Nat
  mtime : MTime
deriving DecidableEq, Repr

/-- The destination filesystem: files keyed by component path, plus the set
of directories created so far. -/
structure FsState where
  files : List (List String × FileData)
  dirs : List (List String)
deriving DecidableEq, Repr

inductive ProcResult where
  | ok
  | fileError (msg : String)
deriving DecidableEq, Repr

/-- The `Processor` struct (processor.go lines 25-31). -/
structure ProcessorConfig where
  width : Nat
  height : Nat
  quality : Nat
  format : String
  skipExisting : Bool
deriving DecidableEq, Repr

/-- Oracle results of the external collaborators called by `ProcessFile`, for
one source file. -/
structure ProcessEnv where
  /-- Decode result (step 2): dimensions of the decoded image, `none` on
  decode failure. -/
  decoded : Option (Nat × Nat)
  /-- `SearchAndExtractExifWithReader` + `GetFlatExifData` on the source
  file: the flat tag list, or `none` when either call fails (no usable
  EXIF).  `ProcessFile` runs this search twice on the same reopened file and
  `fixOrientation` a third time; the file does not change, so all three see
  the same result. -/
  exifTags : Option (List ExifTag)
  /-- `jpeg.Encode` output bytes, or failure. -/
  encodeJpeg : Except Unit (List Nat)
  /-- `webp.Encode` output bytes, or failure. -/
  encodeWebp : Except Unit (List Nat)
  /-- Whether `rebuildExif` succeeds overall (its `GetFlatExifData` and
  `EncodeToExif` calls). -/
  rebuildOk : Bool
  /-- The pair returned by `webp.SetMetadata`: bytes and an error flag.  The
  Go assignment `encodedData, err = webp.SetMetadata(...)` keeps the returned
  bytes in both cases. -/
  webpSetMetadata : List Nat × Bool
  /-- Result of `p.embedExifInJPEG`: new bytes on success; on failure every
  error path of `embedExifInJPEG` (processor.go lines 279-322) returns `nil`
  bytes together with the error. -/
  embedJpeg : Except Unit (List Nat)
  /-- `os.Stat(srcPath).ModTime()`, or `none` when `Stat` fails. -/
  srcModTime : Option Int
deriving Repr

def lookupFile (fs : FsState) (p : List String) : Option FileData :=
  (fs.files.find? (fun kv => kv.1 == p)).map (fun kv => kv.2)

/-- `os.WriteFile`: create or truncate, one atomic write; the modification
time becomes the write time. -/
def writeFileFs (fs : FsState) (p : List String) (content : List Nat)
    (dims : Nat × Nat) : FsState :=
  { fs with files :=
      (p, ⟨content, dims, MTime.fromWrite⟩) :: fs.files.filter (fun kv => !(kv.1 == p)) }

/-- `os.Chtimes` on an existing file. -/
def chtimesFs (fs : FsState) (p : List String) (t : MTime) : FsState :=
  { fs with files :=
      fs.files.map (fun kv => if kv.1 == p then (kv.1, { kv.2 with mtime := t }) else kv) }

/-- `os.MkdirAll` for the destination directory. -/
def mkdirAllFs (fs : FsState) (d : List String) : FsState :=
  { fs with dirs := d :: fs.dirs }

/-- The Go assignment `encodedData, err = p.embedExifInJPEG(encodedData,
rawExif)`: the returned bytes are kept whether or not the call failed, and
every failure path of `embedExifInJPEG` returns `nil` (here `[]`). -/
def embedJpegAssign : Except Unit (List Nat) → List Nat
  | .ok d => d
  | .error _ => []

/-- The capture time `ProcessFile` ends up with after its EXIF search: the
loop's result when EXIF was extracted, else the zero time the variable was
initialised with. -/
def captureTimeOf (env : ProcessEnv) : Date6 :=
  match env.exifTags with
  | some tags => extractCaptureTime tags
  | none => zeroDate

/-- `ProcessFile` (processor.go lines 45-214) as a function from the
destination filesystem to result × destination filesystem, with all external
calls supplied by the oracle `env`:

1. open + decode (failure is fatal for the file);
2. EXIF search for the capture time;
3. `fixOrientation` (here: its effect on dimensions);
4. `imaging.Fit` into the orientation-dependent box;
5. filename normalization and destination path;
6. skip-existing check — return success immediately, touching nothing;
7. `MkdirAll`, then encode to memory (failure fatal);
8. metadata rebuild and embed: on rebuild failure keep the plain encoded
   bytes, otherwise the format-appropriate embed call's returned bytes;
9. one `WriteFile` of the final bytes;
10. `Chtimes` to the capture time when non-zero, else to the source file's
    modification time when `Stat` succeeds. -/
def processFile (cfg : ProcessorConfig) (env : ProcessEnv)
    (srcPath destDir : List String) (fs : FsState) : ProcResult × FsState :=
  match env.decoded with
  | none => (.fileError "failed to decode image", fs)
  | some wh =>
    let oriented : Nat × Nat :=
      match env.exifTags with
      | some tags => fixOrientationDims (extractOrientation tags) wh
      | none => wh
    let outDims := processResizeDims cfg.width cfg.height oriented.1 oriented.2
    let destPath := destDir ++ [getOutputFilename (srcPath.getLastD "") cfg.format]
    if cfg.skipExisting && fs.files.any (fun kv => kv.1 == destPath) then
      (.ok, fs)
    else
      let fs1 := mkdirAllFs fs destDir
      match (if cfg.format = "jpg" ∨ cfg.format = "jpeg"
             then env.encodeJpeg else env.encodeWebp) with
      | .error _ => (.fileError "failed to encode", fs1)
      | .ok encoded =>
        let finalData : List Nat :=
          match env.exifTags with
          | none => encoded
          | some _ =>
            if !env.rebuildOk then encoded
            else if cfg.format = "webp" then env.webpSetMetadata.1
            else if cfg.format = "jpg" ∨ cfg.format = "jpeg" then
              embedJpegAssign env.embedJpeg
            else encoded
        let fs2 := writeFileFs fs1 destPath finalData outDims
        let fs3 :=
          if captureTimeOf env ≠ zeroDate then
            chtimesFs fs2 destPath (MTime.fromCapture (captureTimeOf env))
          else
            match env.srcModTime with
            | some t => chtimesFs fs2 destPath (MTime.fromSource t)
            | none => fs2
        (.ok, fs3)

/-- C3: when SkipExisting is enabled and a file already exists at the
computed destination path, `ProcessFile` (once past decoding, which precedes
the check) returns success immediately and the destination filesystem is
returned exactly as it was: no write, no encode result visible, no timestamp
update and no directory creation for that file. -/
theorem skipExisting_spec (cfg : ProcessorConfig) (env : ProcessEnv)
    (srcPath destDir : List String) (fs : FsState)
    (hskip : cfg.skipExisting = true)
    (hdec : env.decoded.isSome = true)
    (hex : fs.files.any (fun kv =>
        kv.1 == destDir ++ [getOutputFilename (srcPath.getLastD "") cfg.format])
      = true) :
    processFile cfg env srcPath destDir fs = (ProcResult.ok, fs) := by
  obtain ⟨wh, hwh⟩ := Option.isSome_iff_exists.mp hdec
  simp only [processFile, hwh, hskip, hex, Bool.true_and, if_true]

/-- Witness for C3: a webp run with skip-existing on and `out/a.webp` already
present leaves the filesystem untouched and reports success. -/
theorem skipExisting_spec_witness :
    ((⟨1280, 800, 80, "webp", true⟩ : ProcessorConfig).skipExisting = true) ∧
    ((⟨some (10, 5), none, Except.ok [], Except.ok [1], true, ([], false),
        Except.ok [], none⟩ : ProcessEnv).decoded.isSome = true) ∧
    ((⟨[(["out", "a.webp"], ⟨[7], (3, 2), MTime.fromWrite⟩)], []⟩ : FsState).files.any
        (fun kv => kv.1 == ["out"] ++
          [getOutputFilename ((["a.jpg"] : List String).getLastD "")
            (⟨1280, 800, 80, "webp", true⟩ : ProcessorConfig).format]) = true) ∧
    processFile ⟨1280, 800, 80, "webp", true⟩
        ⟨some (10, 5), none, Except.ok [], Except.ok [1], true, ([], false),
          Except.ok [], none⟩
        ["a.jpg"] ["out"]
        ⟨[(["out", "a.webp"], ⟨[7], (3, 2), MTime.fromWrite⟩)], []⟩
      = (ProcResult.ok, ⟨[(["out", "a.webp"], ⟨[7], (3, 2), MTime.fromWrite⟩)], []⟩) :=
  ⟨rfl, rfl, by decide,
    skipExisting_spec ⟨1280, 800, 80, "webp", true⟩
      ⟨some (10, 5), none, Except.ok [], Except.ok [1], true, ([], false),
        Except.ok [], none⟩
      ["a.jpg"] ["out"]
      ⟨[(["out", "a.webp"], ⟨[7], (3, 2), MTime.fromWrite⟩)], []⟩
      rfl rfl (by decide)⟩

/-- C2 at its failing input: with jpg output, EXIF present, a successful
metadata rebuild and a failing `embedExifInJPEG`, `ProcessFile` returns
success but the bytes written to the destination are the `nil` slice the
failed embed call returned — an empty file — not the encoded image bytes
`[1, 2, 3]` the claim requires. -/
theorem embedFailure_writes_nil :
    (processFile ⟨1280, 800, 80, "jpg", false⟩
        ⟨some (100, 50), some [⟨"IFD", "Make", "TestCam", none⟩],
          Except.ok [1, 2, 3], Except.ok [9], true, ([], false),
          Except.error (), some 5⟩
        ["photo.jpg"] ["out"] ⟨[], []⟩).1 = ProcResult.ok ∧
    (lookupFile (processFile ⟨1280, 800, 80, "jpg", false⟩
        ⟨some (100, 50), some [⟨"IFD", "Make", "TestCam", none⟩],
          Except.ok [1, 2, 3], Except.ok [9], true, ([], false),
          Except.error (), some 5⟩
        ["photo.jpg"] ["out"] ⟨[], []⟩).2 ["out", "photo.jpg"]).map
        (fun fd => fd.content) = some [] ∧
    ([] : List Nat) ≠ [1, 2, 3] := by decide

/-- After write-then-chtimes, the destination file holds the written content
and the chtimes timestamp. -/
theorem lookupFile_write_chtimes (fs : FsState) (p : List String)
    (c : List Nat) (d : Nat × Nat) (t : MTime) :
    lookupFile (chtimesFs (writeFileFs fs p c d) p t) p = some ⟨c, d, t⟩ := by
  simp [lookupFile, chtimesFs, writeFileFs, List.find?]

/-- C5 (amended): once a file reaches the write (decodes, is not skipped,
encodes), `ProcessFile` succeeds — EXIF absence is not an error — and the
destination file's modification time is set to the extracted capture time
when one exists, else to the source file's modification time; the capture
time is the first tag in metadata order named `DateTimeOriginal` or
`CreateDate` whose value parses as `YYYY:MM:DD HH:MM:SS`. -/
theorem timestamp_spec (cfg : ProcessorConfig) (env : ProcessEnv)
    (srcPath destDir : List String) (fs : FsState) (wh : Nat × Nat)
    (encoded : List Nat) (srcT : Int)
    (hdec : env.decoded = some wh)
    (hskip : cfg.skipExisting = false)
    (henc : (if cfg.format = "jpg" ∨ cfg.format = "jpeg"
             then env.encodeJpeg else env.encodeWebp) = Except.ok encoded)
    (hsrc : env.srcModTime = some srcT) :
    (processFile cfg env srcPath destDir fs).1 = ProcResult.ok ∧
    (lookupFile (processFile cfg env srcPath destDir fs).2
        (destDir ++ [getOutputFilename (srcPath.getLastD "") cfg.format])).map
        (fun fd => fd.mtime)
      = some (if captureTimeOf env ≠ zeroDate
              then MTime.fromCapture (captureTimeOf env)
              else MTime.fromSource srcT) := by
  constructor
  · by_cases hct : captureTimeOf env = zeroDate <;>
      simp [processFile, hdec, hskip, henc, hct, hsrc]
  · by_cases hct : captureTimeOf env = zeroDate
    · simp [processFile, hdec, hskip, henc, hct, hsrc, lookupFile_write_chtimes]
    · simp [processFile, hdec, hskip, henc, hct, lookupFile_write_chtimes]

/-- Environment of the C5 witness: an image whose only date tag is
`DateTimeOriginal 2022:08:11 09:49:00`. -/
def envW5 : ProcessEnv :=
  ⟨some (4, 2),
    some [⟨"IFD/Exif", "DateTimeOriginal", "2022:08:11 09:49:00", none⟩],
    Except.ok [], Except.ok [1], false, ([2], false), Except.ok [], some 42⟩

def cfgW5 : ProcessorConfig := ⟨1280, 800, 80, "webp", false⟩

/-- Witness for C5: the destination file's modification time becomes the
capture time parsed from `DateTimeOriginal`. -/
theorem timestamp_spec_witness :
    envW5.decoded = some (4, 2) ∧
    cfgW5.skipExisting = false ∧
    (if cfgW5.format = "jpg" ∨ cfgW5.format = "jpeg"
     then envW5.encodeJpeg else envW5.encodeWebp) = Except.ok ([1] : List Nat) ∧
    envW5.srcModTime = some 42 ∧
    ((processFile cfgW5 envW5 ["x.jpg"] ["out"] ⟨[], []⟩).1 = ProcResult.ok ∧
      (lookupFile (processFile cfgW5 envW5 ["x.jpg"] ["out"] ⟨[], []⟩).2
          (["out"] ++ [getOutputFilename ((["x.jpg"] : List String).getLastD "")
            cfgW5.format])).map (fun fd => fd.mtime)
        = some (if captureTimeOf envW5 ≠ zeroDate
                then MTime.fromCapture (captureTimeOf envW5)
                else MTime.fromSource 42)) :=
  ⟨rfl, rfl, rfl, rfl,
    timestamp_spec cfgW5 envW5 ["x.jpg"] ["out"] ⟨[], []⟩ (4, 2) [1] 42
      rfl rfl rfl rfl⟩

/-- Environment of the C5 counterexample: `CreateDate` precedes
`DateTimeOriginal` in the flat tag list and both parse. -/
def envC5 : ProcessEnv :=
  ⟨some (4, 2),
    some [⟨"IFD/Exif", "CreateDate", "2020:03:04 05:06:07", none⟩,
          ⟨"IFD/Exif", "DateTimeOriginal", "2021:03:04 05:06:07", none⟩],
    Except.ok [], Except.ok [1], false, ([2], false), Except.ok [], some 42⟩

/-- Counterexample to C5 as stated: with `CreateDate 2020:03:04 05:06:07`
listed before `DateTimeOriginal 2021:03:04 05:06:07` (both parse),
`ProcessFile` sets the destination modification time from `CreateDate`, not
from `DateTimeOriginal` as the claimed priority order requires — the code
takes the first matching tag in metadata order, not `DateTimeOriginal`
first. -/
theorem captureTime_priority_counterexample :
    (lookupFile (processFile ⟨1280, 800, 80, "webp", false⟩ envC5
        ["x.jpg"] ["out"] ⟨[], []⟩).2 ["out", "x.webp"]).map (fun fd => fd.mtime)
      = some (MTime.fromCapture ⟨2020, 3, 4, 5, 6, 7⟩) ∧
    parseExifTime "2021:03:04 05:06:07" = some ⟨2021, 3, 4, 5, 6, 7⟩ ∧
    MTime.fromCapture (⟨2020, 3, 4, 5, 6, 7⟩ : Date6) ≠
      MTime.fromCapture ⟨2021, 3, 4, 5, 6, 7⟩ := by decide

end Frameo
